import Mathlib

/-!
Shallow embedding of the forward-computation core of
`src/pretraining/modeling_roberta.py` (RoBERTa-style encoder for
masked-language-model pretraining), together with theorems settling the
specification claims about it.

Modelling conventions:
* tensors are nested lists of rationals (`Vec`, `Mat`, `T3`); machine floats
  are modelled as exact rationals, and external irrational primitives
  (square root, activation functions, layer normalization, softmax-based
  sub-blocks, the loss function) are abstract function parameters, exactly
  at the module boundaries the source code draws (they are external
  `torch` collaborators there);
* dropout layers are modelled in their deterministic evaluation-mode
  semantics (identity), as the spec fixes for forward computation;
* python integer truncation `int(q)` is `pyTrunc`.
-/

/-- A vector: the last tensor axis (hidden width / vocabulary axis). -/
abbrev Vec := List ℚ

/-- A matrix: either a weight matrix or a (seq, hidden) tensor slice. -/
abbrev Mat := List Vec

/-- A rank-3 tensor of shape (batch, seq, hidden). -/
abbrev T3 := List Mat

/-- Dot product of two rationals vectors (zip truncates; well-formed inputs
have equal lengths). -/
def dotQ (x y : Vec) : ℚ := (List.zipWith (· * ·) x y).sum

/-- `W · x` for a weight matrix `W` (one output per matrix row). -/
def matVec (W : Mat) (x : Vec) : Vec := W.map (fun row => dotQ row x)

/-- Elementwise sum of two vectors. -/
def addVec (x y : Vec) : Vec := List.zipWith (· + ·) x y

/-- Elementwise sum of two matrices. -/
def addMat (x y : Mat) : Mat := List.zipWith addVec x y

/-- Elementwise sum of two rank-3 tensors (the residual `+` of the source). -/
def addT3 (x y : T3) : T3 := List.zipWith addMat x y

/-- Apply a row-wise map over the last axis of a rank-3 tensor: this is how
every `nn.Linear` / activation / per-row normalization acts on a
(batch, seq, hidden) tensor. -/
def mapRows (f : Vec → Vec) (t : T3) : T3 := t.map (fun m => m.map f)

/-- Elementwise scalar map over a rank-3 tensor. -/
def mapT3 (f : ℚ → ℚ) (t : T3) : T3 := t.map (fun m => m.map (fun r => r.map f))

/-- `hidden_states.view(-1, hidden_size)`: flatten (batch, seq, hidden) to a
list of row vectors. -/
def flatRows (t : T3) : Mat := t.flatten

/-- `nn.Linear` applied to the last axis: `x ↦ W x + b` per row. -/
def nnLinear (W : Mat) (b : Vec) (t : T3) : T3 :=
  mapRows (fun v => addVec (matVec W v) b) t

/-- `nn.Dropout` in evaluation mode: the identity on values. -/
def dropout3 (t : T3) : T3 := t

/-- Sum of squares of a vector (the quantity under `x.norm(2, dim=-1)`). -/
def sumSq (x : Vec) : ℚ := (x.map (fun a => a * a)).sum

/-- Python `int()` truncation toward zero on a rational. -/
def pyTrunc (q : ℚ) : ℤ := if 0 ≤ q then ⌊q⌋ else -⌊-q⌋

/-- Parameters and configuration of `RMSNorm` (source lines 200-241).
`p` is the partial-RMSNorm fraction, `d` the model size. -/
structure RMSNormParams where
  d : ℕ
  p : ℚ
  eps : ℚ
  hasBias : Bool
  scale : Vec
  offset : Vec

/-- `RMSNorm.forward` on one last-axis row, translated from source lines
224-241.  `sqrtFn` abstracts the external square root used both by
`x.norm(2)` (Euclidean norm = sqrt of the sum of squares) and by
`d_x ** (-1.0 / 2)` (reciprocal square root of the slice length). -/
def rmsNormForward (sqrtFn : ℚ → ℚ) (prm : RMSNormParams) (x : Vec) : Vec :=
  let normAndD : ℚ × ℕ :=
    if prm.p < 0 ∨ 1 < prm.p then
      (sqrtFn (sumSq x), prm.d)
    else
      let pSize : ℕ := (pyTrunc ((prm.d : ℚ) * prm.p)).toNat
      let pX : Vec := x.take pSize
      (sqrtFn (sumSq pX), pSize)
  let rmsX : ℚ := normAndD.1 * (sqrtFn (normAndD.2 : ℚ))⁻¹
  let xNormed : Vec := x.map (fun xi => xi / (rmsX + prm.eps))
  if prm.hasBias then
    addVec (List.zipWith (· * ·) prm.scale xNormed) prm.offset
  else
    List.zipWith (· * ·) prm.scale xNormed

/-- C6: RMSNorm with `partial_fraction` outside [0, 1] computes the same
output as RMSNorm with the fraction 1.0 (which selects the entire last
axis): both branches take the norm of the whole row and use `d` as the
slice size. -/
theorem c6_rmsnorm_out_of_range_eq_full_axis
    (sqrtFn : ℚ → ℚ) (prm : RMSNormParams) (x : Vec)
    (hp : prm.p < 0 ∨ 1 < prm.p) (hx : x.length = prm.d) :
    rmsNormForward sqrtFn prm x
      = rmsNormForward sqrtFn { prm with p := 1 } x := by
  have h1 : ¬ ((1 : ℚ) < 0 ∨ (1 : ℚ) < 1) := by norm_num
  have hfloor : pyTrunc ((prm.d : ℚ) * 1) = (prm.d : ℤ) := by
    simp [pyTrunc]
  have htake : x.take ((pyTrunc ((prm.d : ℚ) * 1)).toNat) = x := by
    rw [hfloor]
    simpa using (by rw [← hx]; exact List.take_length x : x.take prm.d = x)
  simp only [rmsNormForward, if_pos hp, h1, if_neg h1, htake]
  rw [hfloor]
  simp

/-- Witness for C6 at the concrete out-of-range fraction 3/2 on a
two-element row. -/
theorem c6_witness :
    (((3 : ℚ) / 2 < 0 ∨ 1 < (3 : ℚ) / 2) ∧ ([ (1 : ℚ), 2 ] : Vec).length = 2)
    ∧ rmsNormForward (fun q => q) ⟨2, 3 / 2, 0, false, [1, 1], []⟩ [1, 2]
      = rmsNormForward (fun q => q) ⟨2, 1, 0, false, [1, 1], []⟩ [1, 2] :=
  ⟨⟨by norm_num, by decide⟩,
    c6_rmsnorm_out_of_range_eq_full_axis (fun q => q)
      ⟨2, 3 / 2, 0, false, [1, 1], []⟩ [1, 2] (by norm_num) (by decide)⟩

/-- Default-independent `getD` of a mapped list at an in-bounds index. -/
theorem getD_map_lt {α β : Type} (f : α → β) (l : List α) (j : ℕ) (d : α)
    (e : β) (h : j < l.length) : (l.map f).getD j e = f (l.getD j d) := by
  induction l generalizing j with
  | nil => simp at h
  | cons a t ih =>
    cases j with
    | zero => simp
    | succ k =>
      simp only [List.map_cons, List.getD_cons_succ]
      exact ih k (Nat.lt_of_succ_lt_succ h)

/-- `RobertaModel.forward`, source lines 797-807: the extended attention
bias built from the 0-1 padding mask by `(1.0 - mask) * -10000.0`
(the `unsqueeze` steps only add broadcast axes and are shape bookkeeping,
so the bias is modelled on the (batch, seq) mask entries themselves). -/
def extendedAttentionMask (mask : Mat) : Mat :=
  mask.map (fun row => row.map (fun m => (1 - m) * (-10000)))

/-- Entry formula of the extended attention bias at an in-bounds index. -/
theorem extendedAttentionMask_getD (mask : Mat) (i j : ℕ)
    (hi : i < mask.length) (hj : j < (mask.getD i []).length) :
    ((extendedAttentionMask mask).getD i []).getD j 0
      = (1 - (mask.getD i []).getD j 0) * (-10000) := by
  have h1 : (extendedAttentionMask mask).getD i []
      = (mask.getD i []).map (fun m => (1 - m) * (-10000)) :=
    getD_map_lt (fun row : Vec => row.map (fun m => (1 - m) * (-10000))) mask i [] [] hi
  rw [h1]
  exact getD_map_lt (fun m => (1 - m) * (-10000)) (mask.getD i []) j 0 0 hj

/-- C3: properties of the attention bias `(1.0 - mask) * -10000.0` built by
the model forward pass from a 0-1 padding mask: (a) the bias is 0 wherever
the mask is 1, (b) an all-ones mask yields an all-zero bias, and (c) if
exactly one mask entry is 0 then the corresponding bias entry is exactly
-10000 and every other entry is 0. -/
theorem c3_attention_bias_spec (mask : Mat)
    (hdom : ∀ row ∈ mask, ∀ m ∈ row, m = 0 ∨ m = 1) :
    (∀ i j, i < mask.length → j < (mask.getD i []).length →
      (mask.getD i []).getD j 0 = 1 →
      ((extendedAttentionMask mask).getD i []).getD j 0 = 0)
    ∧ ((∀ row ∈ mask, ∀ m ∈ row, m = 1) →
        ∀ row ∈ extendedAttentionMask mask, ∀ v ∈ row, v = 0)
    ∧ (∀ i0 j0, i0 < mask.length → j0 < (mask.getD i0 []).length →
        (mask.getD i0 []).getD j0 0 = 0 →
        (∀ i ∈ List.range mask.length, ∀ j ∈ List.range (mask.getD i []).length,
          (i, j) ≠ (i0, j0) → (mask.getD i []).getD j 0 = 1) →
        ((extendedAttentionMask mask).getD i0 []).getD j0 0 = -10000
        ∧ ∀ i ∈ List.range mask.length, ∀ j ∈ List.range (mask.getD i []).length,
            (i, j) ≠ (i0, j0) →
            ((extendedAttentionMask mask).getD i []).getD j 0 = 0) := by
  refine ⟨?_, ?_, ?_⟩
  · intro i j hi hj hone
    rw [extendedAttentionMask_getD mask i j hi hj, hone]
    ring
  · intro hall row hrow v hv
    simp only [extendedAttentionMask, List.mem_map] at hrow
    obtain ⟨r, hr, hrE⟩ := hrow
    subst hrE
    simp only [List.mem_map] at hv
    obtain ⟨m, hm, hmE⟩ := hv
    subst hmE
    rw [hall r hr m hm]
    ring
  · intro i0 j0 hi0 hj0 hzero hones
    constructor
    · rw [extendedAttentionMask_getD mask i0 j0 hi0 hj0, hzero]
      ring
    · intro i hi j hj hne
      rw [List.mem_range] at hi hj
      rw [extendedAttentionMask_getD mask i j hi hj,
        hones i (List.mem_range.mpr hi) j (List.mem_range.mpr hj) hne]
      ring

/-- Witness for C3 at the concrete mask [[1, 0], [1, 1]] whose single zero
entry sits at position (0, 1). -/
theorem c3_witness :
    ((extendedAttentionMask [[1, 0], [1, 1]]).getD 0 []).getD 1 0 = -10000
    ∧ ((extendedAttentionMask [[1, 0], [1, 1]]).getD 1 []).getD 0 0 = 0 := by
  have h := c3_attention_bias_spec [[1, 0], [1, 1]] (by decide)
  have h3 := h.2.2 0 1 (by decide) (by decide) (by decide) (by decide)
  exact ⟨h3.1, h3.2 1 (by decide) 0 (by decide) (by decide)⟩

/-- The configuration fields consumed by `RobertaSelfAttention.__init__`. -/
structure AttnConfig where
  hidden_size : ℕ
  num_attention_heads : ℕ

/-- The derived attention dimensions stored by a successfully constructed
`RobertaSelfAttention`. -/
structure SelfAttnDims where
  num_attention_heads : ℕ
  attention_head_size : ℕ
  all_head_size : ℕ
deriving DecidableEq

/-- `RobertaSelfAttention.__init__`, source lines 317-326: raises
`ValueError` when the hidden size is not a multiple of the head count
(Python raises `ZeroDivisionError` at the `%` itself when the head count
is zero); otherwise stores `attention_head_size = int(hidden_size /
num_attention_heads)` and `all_head_size = heads * head_size`. -/
def robertaSelfAttentionInit (cfg : AttnConfig) : Except String SelfAttnDims :=
  if cfg.num_attention_heads = 0 then
    Except.error "ZeroDivisionError: integer division or modulo by zero"
  else if cfg.hidden_size % cfg.num_attention_heads ≠ 0 then
    Except.error "The hidden size is not a multiple of the number of attention heads"
  else
    Except.ok
      { num_attention_heads := cfg.num_attention_heads
        attention_head_size := cfg.hidden_size / cfg.num_attention_heads
        all_head_size :=
          cfg.num_attention_heads * (cfg.hidden_size / cfg.num_attention_heads) }

/-- C9: for every configuration with a positive head count, constructing
the attention block succeeds if and only if the hidden width is evenly
divisible by the head count (otherwise it fails with an error), and on
success the stored head size is the hidden width divided by the head
count, which recovers the hidden width when multiplied by the head
count. -/
theorem c9_attention_init_divisibility (cfg : AttnConfig)
    (hpos : 0 < cfg.num_attention_heads) :
    ((∃ d, robertaSelfAttentionInit cfg = Except.ok d)
        ↔ cfg.num_attention_heads ∣ cfg.hidden_size)
    ∧ ((∃ e, robertaSelfAttentionInit cfg = Except.error e)
        ↔ ¬ cfg.num_attention_heads ∣ cfg.hidden_size)
    ∧ (∀ d, robertaSelfAttentionInit cfg = Except.ok d →
        d.attention_head_size = cfg.hidden_size / cfg.num_attention_heads
        ∧ d.attention_head_size * cfg.num_attention_heads = cfg.hidden_size) := by
  have hne : cfg.num_attention_heads ≠ 0 := Nat.pos_iff_ne_zero.mp hpos
  by_cases hdvd : cfg.num_attention_heads ∣ cfg.hidden_size
  · have hmod : cfg.hidden_size % cfg.num_attention_heads = 0 := by
      obtain ⟨k, hk⟩ := hdvd
      simp [hk, Nat.mul_mod_right]
    have hinit : robertaSelfAttentionInit cfg
        = Except.ok
            { num_attention_heads := cfg.num_attention_heads
              attention_head_size := cfg.hidden_size / cfg.num_attention_heads
              all_head_size :=
                cfg.num_attention_heads
                  * (cfg.hidden_size / cfg.num_attention_heads) } := by
      simp [robertaSelfAttentionInit, hne, hmod]
    refine ⟨⟨fun _ => hdvd, fun _ => ⟨_, hinit⟩⟩, ⟨fun hex => ?_, fun hn => absurd hdvd hn⟩, ?_⟩
    · obtain ⟨e, he⟩ := hex
      rw [hinit] at he
      exact Except.noConfusion he
    · intro d hd
      rw [hinit] at hd
      injection hd with h
      subst h
      exact ⟨rfl, Nat.div_mul_cancel hdvd⟩
  · have hmod : cfg.hidden_size % cfg.num_attention_heads ≠ 0 := fun h =>
      hdvd (Nat.dvd_of_mod_eq_zero h)
    have hinit : robertaSelfAttentionInit cfg
        = Except.error
            "The hidden size is not a multiple of the number of attention heads" := by
      simp [robertaSelfAttentionInit, hne, hmod]
    refine ⟨⟨fun hex => ?_, fun h => absurd h hdvd⟩,
      ⟨fun _ => hdvd, fun _ => ⟨_, hinit⟩⟩, ?_⟩
    · obtain ⟨d, hd⟩ := hex
      rw [hinit] at hd
      exact Except.noConfusion hd
    · intro d hd
      rw [hinit] at hd
      exact Except.noConfusion hd

/-- Witness for C9 at the concrete configuration (hidden 12, heads 3):
construction succeeds because 3 divides 12. -/
theorem c9_witness : ∃ d, robertaSelfAttentionInit ⟨12, 3⟩ = Except.ok d :=
  (c9_attention_init_divisibility ⟨12, 3⟩ (by decide)).1.mpr ⟨4, by decide⟩

/-- Normalization placement (`config.encoder_ln_mode`, the two supported
values "pre-ln" and "post-ln"; the source tests placement by substring
containment of the configured mode in the placement token, which for these
two values is equality). -/
inductive LnMode where
  | pre : LnMode
  | post : LnMode
deriving DecidableEq

/-- Parameters of `RobertaSelfOutput` (source lines 374-379): a dense
hidden-to-hidden projection followed by dropout. -/
structure SelfOutputParams where
  W : Mat
  b : Vec

/-- `RobertaSelfOutput.forward`, source lines 381-384: dense projection and
dropout applied to the context tensor only; the second argument
`input_tensor` is received but never used (the residual addition happens in
`RobertaLayer.forward`, source line 466, not in this stage). -/
def robertaSelfOutputForward (prm : SelfOutputParams)
    (hidden_states input_tensor : T3) : T3 :=
  dropout3 (nnLinear prm.W prm.b hidden_states)

/-- C10: the attention self-output stage's result is independent of its
second argument: for fixed parameters, `RobertaSelfOutput.forward(context,
input_tensor)` returns the same value for every choice of `input_tensor`. -/
theorem c10_self_output_ignores_input_tensor (prm : SelfOutputParams)
    (context t1 t2 : T3) :
    robertaSelfOutputForward prm context t1
      = robertaSelfOutputForward prm context t2 := rfl

/-- Parameters of `RobertaLayer` (source lines 432-443): the attention
block, the two layer norms, and the feed-forward sub-blocks, each a
sub-module of its own (the attention block maps (hidden, bias) to
(context-after-output-projection, attention probabilities); `A` is the
attention-bias tensor type and `P` the attention-probability tensor
type). -/
structure RobertaLayerParams (A P : Type) where
  useLN : Bool
  encoder_ln_mode : LnMode
  attention : T3 → A → T3 × P
  PreAttentionLayerNorm : T3 → T3
  PostAttentionLayerNorm : T3 → T3
  intermediate : T3 → T3
  output : T3 → T3

/-- `RobertaLayer.maybe_layer_norm`, source lines 445-449: apply the given
layer norm only when normalization is enabled and the configured placement
matches the current placement token. -/
def maybeLayerNorm {A P : Type} (prm : RobertaLayerParams A P) (h : T3)
    (layer_norm : T3 → T3) (current_ln_mode : LnMode) : T3 :=
  if prm.useLN ∧ prm.encoder_ln_mode = current_ln_mode then layer_norm h else h

/-- `RobertaLayer.forward`, source lines 451-491: `action = 0` bypasses both
the attention and the feed-forward sub-blocks; otherwise the attention
sub-block runs with its pre/post-norm placement, the residual-scaled
(`* 1 / keep_prob`) attention output is added to the input, and the
feed-forward sub-block does the same independently. -/
def robertaLayerForward {A P : Type} (prm : RobertaLayerParams A P)
    (hidden_states : T3) (attention_mask : A) (action : ℕ) (keep_prob : ℚ) :
    T3 × Option P :=
  let step1 : T3 × Option P :=
    if action = 0 then
      (hidden_states, none)
    else
      let pre_attn_input :=
        maybeLayerNorm prm hidden_states prm.PreAttentionLayerNorm LnMode.pre
      let self_attn_out := prm.attention pre_attn_input attention_mask
      let attention_output := mapT3 (fun a => a * 1 / keep_prob) self_attn_out.1
      let intermediate_input := addT3 hidden_states attention_output
      (maybeLayerNorm prm intermediate_input prm.PreAttentionLayerNorm LnMode.post,
        some self_attn_out.2)
  let layer_output : T3 :=
    if action = 0 then
      step1.1
    else
      let intermediate_pre_ffn :=
        maybeLayerNorm prm step1.1 prm.PostAttentionLayerNorm LnMode.pre
      let intermediate_output := prm.intermediate intermediate_pre_ffn
      let lo := prm.output intermediate_output
      let lo := mapT3 (fun a => a * 1 / keep_prob) lo
      let lo := addT3 lo step1.1
      maybeLayerNorm prm lo prm.PostAttentionLayerNorm LnMode.post
  (layer_output, step1.2)

/-- C4: calling the transformer layer with `action = 0` returns the input
hidden-state tensor unchanged as its first output (and no attention
probabilities), for every hidden state, every attention bias and every
`keep_prob`. -/
theorem c4_layer_action_zero_identity {A P : Type} (prm : RobertaLayerParams A P)
    (hidden_states : T3) (attention_mask : A) (keep_prob : ℚ) :
    robertaLayerForward prm hidden_states attention_mask 0 keep_prob
      = (hidden_states, none) := rfl

/-- Sum of scaled rows: `v · B` for a row vector `v` and matrix `B`
(used by the batched matrix multiply `torch.bmm`). -/
def vecMat (v : Vec) (B : Mat) : Vec :=
  (List.zip v B).foldl
    (fun acc xr => addVec acc (xr.2.map (fun b => xr.1 * b)))
    (List.replicate (B.getD 0 []).length 0)

/-- Matrix product (rows of the first argument against the second). -/
def matMulQ (A B : Mat) : Mat := A.map (fun row => vecMat row B)

/-- `torch.bmm`: batched matrix multiply over the leading batch axis. -/
def bmm (x y : T3) : T3 := List.zipWith matMulQ x y

/-- The configuration fields consumed by `RobertaEncoder.forward`
(source lines 494-548). -/
structure RobertaEncoderConfig where
  useLN : Bool
  encoder_ln_mode : LnMode
  is_Ngram : Bool
  num_hidden_Ngram_layers : ℕ
  is_transformer_kernel : Bool

/-- `math.ceil(math.sqrt(n))` on a natural number. -/
def ceilSqrt (n : ℕ) : ℕ :=
  if Nat.sqrt n * Nat.sqrt n = n then Nat.sqrt n else Nat.sqrt n + 1

/-- `custom(start, end)`'s inner loop, source lines 570-578: apply a slice
of layers sequentially, threading the hidden state (value-level semantics
of one recomputation-checkpointed chunk: `checkpoint.checkpoint` replays
the computation during the backward pass but returns the same forward
values; the hidden-state component of each layer's return is threaded, as
with the kernel-substitution layers this path is designed for). -/
def customForward {A P : Type} (layers : List (T3 → A → T3 × P))
    (x : T3) (mask : A) : T3 :=
  layers.foldl (fun acc layer => (layer acc mask).1) x

/-- The checkpointing while-loop, source lines 580-588: starting at layer
index `l = 0`, run the chunk `self.layer[l : l + chunk]` as one
checkpointed unit and advance `l` by the chunk length until all layers are
consumed.  `fuel` bounds the recursion; `num_layers` steps suffice because
the chunk length is at least 1. -/
def ckptLoop {A P : Type} (layers : List (T3 → A → T3 × P)) (chunk : ℕ)
    (mask : A) : ℕ → ℕ → T3 → T3
  | 0, _, h => h
  | fuel + 1, l, h =>
      if l < layers.length then
        ckptLoop layers chunk mask fuel (l + chunk)
          (customForward ((layers.drop l).take chunk) h mask)
      else h

/-- The (start, end) layer-index ranges of the checkpointing loop's chunks
(`end` clipped to the layer count, as Python slicing clips). -/
def ckptChunkBounds (numLayers chunk : ℕ) : ℕ → ℕ → List (ℕ × ℕ)
  | 0, _ => []
  | fuel + 1, l =>
      if l < numLayers then
        (l, min (l + chunk) numLayers)
          :: ckptChunkBounds numLayers chunk fuel (l + chunk)
      else []

/-- State threaded by the non-checkpointed encoder loop. -/
structure EncoderLoopState (P : Type) where
  hidden : T3
  Ngram_hidden : T3
  all_encoder_layers : List T3
  all_attentions : List P

/-- The non-checkpointed per-layer loop of `RobertaEncoder.forward`, source
lines 591-615: run layer `i` on the hidden state (kernel-substitution
layers return the hidden state directly and skip attention recording;
default layers return (hidden, probs) and the probs are recorded when
requested, `add_attention` appending only non-`None` entries); if N-gram
fusion is on and `i < num_hidden_Ngram_layers`, run N-gram layer `i`,
project through the position matrix with `torch.bmm` and add the result to
the hidden state (`self.Ngram_layer` holds exactly
`num_hidden_Ngram_layers` layers, so the `get?` fallback is never taken on
a well-formed module); record the hidden state when all encoded layers are
requested. -/
def robertaEncoderLoop {A P : Type} (cfg : RobertaEncoderConfig)
    (Ngram_layers : List (T3 → A → T3 × P))
    (attention_mask Ngram_attention_mask : A) (Ngram_position_matrix : T3)
    (output_all_encoded_layers output_attentions : Bool) :
    List (T3 → A → T3 × P) → ℕ → EncoderLoopState P → EncoderLoopState P
  | [], _, st => st
  | layer :: rest, i, st =>
      let hp : T3 × Option P :=
        if cfg.is_transformer_kernel then
          ((layer st.hidden attention_mask).1, none)
        else
          let layer_out := layer st.hidden attention_mask
          (layer_out.1, some layer_out.2)
      let attns : List P :=
        if output_attentions then
          match hp.2 with
          | some p => st.all_attentions ++ [p]
          | none => st.all_attentions
        else st.all_attentions
      let hn : T3 × T3 :=
        if cfg.is_Ngram ∧ i < cfg.num_hidden_Ngram_layers then
          match Ngram_layers.get? i with
          | some ngLayer =>
              let ng := (ngLayer st.Ngram_hidden Ngram_attention_mask).1
              (addT3 hp.1 (bmm Ngram_position_matrix ng), ng)
          | none => (hp.1, st.Ngram_hidden)
        else (hp.1, st.Ngram_hidden)
      let layersAcc : List T3 :=
        if output_all_encoded_layers then st.all_encoder_layers ++ [hn.1]
        else st.all_encoder_layers
      robertaEncoderLoop cfg Ngram_layers attention_mask Ngram_attention_mask
        Ngram_position_matrix output_all_encoded_layers output_attentions
        rest (i + 1) ⟨hn.1, hn.2, layersAcc, attns⟩

/-- `RobertaEncoder.forward`, source lines 556-625: in checkpointed mode,
run the layers in recomputation-checkpointed chunks of
`ceil(sqrt(num_layers))`; otherwise run the per-layer loop; afterwards,
when not all encoded layers were recorded or checkpointing is active,
apply the final layer norm (only in pre-norm mode with normalization
enabled) and append the resulting last hidden state. -/
def robertaEncoderForward {A P : Type} (cfg : RobertaEncoderConfig)
    (layers Ngram_layers : List (T3 → A → T3 × P))
    (FinalLayerNorm : T3 → T3)
    (hidden_states : T3) (attention_mask : A)
    (Ngram_hidden_states : T3) (Ngram_position_matrix : T3)
    (Ngram_attention_mask : A)
    (output_all_encoded_layers checkpoint_activations output_attentions : Bool) :
    List T3 × List P :=
  if checkpoint_activations then
    let chunk_length := ceilSqrt layers.length
    let h := ckptLoop layers chunk_length attention_mask layers.length 0 hidden_states
    let h := if cfg.useLN ∧ cfg.encoder_ln_mode = LnMode.pre then FinalLayerNorm h
      else h
    ([h], [])
  else
    let st := robertaEncoderLoop cfg Ngram_layers attention_mask
      Ngram_attention_mask Ngram_position_matrix output_all_encoded_layers
      output_attentions layers 0 ⟨hidden_states, Ngram_hidden_states, [], []⟩
    if output_all_encoded_layers then
      (st.all_encoder_layers, st.all_attentions)
    else
      let h := if cfg.useLN ∧ cfg.encoder_ln_mode = LnMode.pre
        then FinalLayerNorm st.hidden else st.hidden
      (st.all_encoder_layers ++ [h], st.all_attentions)

/-- The last element of a list with one element appended. -/
theorem getLastD_append_singleton {α : Type} (l : List α) (a : α) :
    ∀ d, (l ++ [a]).getLastD d = a := by
  induction l with
  | nil => intro d; rfl
  | cons b t ih =>
    intro d
    rw [List.cons_append, List.getLastD_cons]
    exact ih b

/-- The hidden state and N-gram hidden state computed by the encoder loop do
not depend on the recording flags or on the accumulated record lists. -/
theorem encoderLoop_hidden_indep {A P : Type} (cfg : RobertaEncoderConfig)
    (ngl : List (T3 → A → T3 × P)) (mask ngmask : A) (posM : T3)
    (oa1 oa2 ot1 ot2 : Bool) :
    ∀ (layers : List (T3 → A → T3 × P)) (i : ℕ) (h ngh : T3)
      (acc1 acc2 : List T3) (at1 at2 : List P),
      ((robertaEncoderLoop cfg ngl mask ngmask posM oa1 ot1 layers i
            ⟨h, ngh, acc1, at1⟩).hidden
          = (robertaEncoderLoop cfg ngl mask ngmask posM oa2 ot2 layers i
            ⟨h, ngh, acc2, at2⟩).hidden)
      ∧ ((robertaEncoderLoop cfg ngl mask ngmask posM oa1 ot1 layers i
            ⟨h, ngh, acc1, at1⟩).Ngram_hidden
          = (robertaEncoderLoop cfg ngl mask ngmask posM oa2 ot2 layers i
            ⟨h, ngh, acc2, at2⟩).Ngram_hidden) := by
  intro layers
  induction layers with
  | nil => intro i h ngh acc1 acc2 at1 at2; exact ⟨rfl, rfl⟩
  | cons lyr rest ih =>
      intro i h ngh acc1 acc2 at1 at2
      simp only [robertaEncoderLoop]
      exact ih (i + 1) _ _ _ _ _ _

/-- With all-layer recording on, the recorded list ends with the final
hidden state (for a non-empty layer list). -/
theorem encoderLoop_outputAll_getLast {A P : Type} (cfg : RobertaEncoderConfig)
    (ngl : List (T3 → A → T3 × P)) (mask ngmask : A) (posM : T3) (ot : Bool) :
    ∀ (layers : List (T3 → A → T3 × P)) (i : ℕ) (st : EncoderLoopState P),
      layers ≠ [] →
      (robertaEncoderLoop cfg ngl mask ngmask posM true ot layers i
          st).all_encoder_layers.getLastD []
        = (robertaEncoderLoop cfg ngl mask ngmask posM true ot layers i
          st).hidden := by
  intro layers
  induction layers with
  | nil => intro i st hne; exact absurd rfl hne
  | cons lyr rest ih =>
      intro i st _
      by_cases hr : rest = []
      · subst hr
        simp only [robertaEncoderLoop, if_pos rfl]
        exact getLastD_append_singleton _ _ _
      · simp only [robertaEncoderLoop]
        exact ih (i + 1) _ hr

/-- With all-layer recording off, the encoder loop leaves the recorded list
untouched. -/
theorem encoderLoop_outputAll_false_acc {A P : Type} (cfg : RobertaEncoderConfig)
    (ngl : List (T3 → A → T3 × P)) (mask ngmask : A) (posM : T3) (ot : Bool) :
    ∀ (layers : List (T3 → A → T3 × P)) (i : ℕ) (st : EncoderLoopState P),
      (robertaEncoderLoop cfg ngl mask ngmask posM false ot layers i
          st).all_encoder_layers = st.all_encoder_layers := by
  intro layers
  induction layers with
  | nil => intro i st; rfl
  | cons lyr rest ih => intro i st; simp only [robertaEncoderLoop]; exact ih (i + 1) _

/-- C2 (amended): in non-checkpointed mode with N-gram fusion disabled and
pre-norm placement with normalization enabled, the final hidden state
returned with recording off equals the final layer norm applied to the
final hidden state returned with recording on: the two runs compute the
same hidden state through the layers, but `FinalLayerNorm` is applied to
it only when not all encoded layers are recorded. -/
theorem c2_encoder_final_hidden_final_norm {A P : Type}
    (cfg : RobertaEncoderConfig)
    (layers Ngram_layers : List (T3 → A → T3 × P)) (FinalLayerNorm : T3 → T3)
    (hidden_states : T3) (attention_mask : A)
    (Ngram_hidden_states Ngram_position_matrix : T3) (Ngram_attention_mask : A)
    (output_attentions : Bool)
    (hLN : cfg.useLN = true) (hmode : cfg.encoder_ln_mode = LnMode.pre)
    (hng : cfg.is_Ngram = false) (hne : layers ≠ []) :
    (robertaEncoderForward cfg layers Ngram_layers FinalLayerNorm hidden_states
        attention_mask Ngram_hidden_states Ngram_position_matrix
        Ngram_attention_mask false false output_attentions).1.getLastD []
      = FinalLayerNorm
          ((robertaEncoderForward cfg layers Ngram_layers FinalLayerNorm
              hidden_states attention_mask Ngram_hidden_states
              Ngram_position_matrix Ngram_attention_mask true false
              output_attentions).1.getLastD []) := by
  have hfalseacc := encoderLoop_outputAll_false_acc cfg Ngram_layers
    attention_mask Ngram_attention_mask Ngram_position_matrix
    output_attentions layers 0
    ⟨hidden_states, Ngram_hidden_states, [], []⟩
  have htrue := encoderLoop_outputAll_getLast cfg Ngram_layers attention_mask
    Ngram_attention_mask Ngram_position_matrix output_attentions layers 0
    ⟨hidden_states, Ngram_hidden_states, [], []⟩ hne
  have hindep := (encoderLoop_hidden_indep cfg Ngram_layers attention_mask
    Ngram_attention_mask Ngram_position_matrix false true output_attentions
    output_attentions layers 0 hidden_states Ngram_hidden_states [] [] [] []).1
  have hred1 : (robertaEncoderForward cfg layers Ngram_layers FinalLayerNorm
      hidden_states attention_mask Ngram_hidden_states Ngram_position_matrix
      Ngram_attention_mask false false output_attentions).1
      = (robertaEncoderLoop cfg Ngram_layers attention_mask
          Ngram_attention_mask Ngram_position_matrix false output_attentions
          layers 0
          ⟨hidden_states, Ngram_hidden_states, [], []⟩).all_encoder_layers
        ++ [FinalLayerNorm (robertaEncoderLoop cfg Ngram_layers attention_mask
            Ngram_attention_mask Ngram_position_matrix false output_attentions
            layers 0
            ⟨hidden_states, Ngram_hidden_states, [], []⟩).hidden] := by
    simp [robertaEncoderForward, hLN, hmode]
  have hred2 : (robertaEncoderForward cfg layers Ngram_layers FinalLayerNorm
      hidden_states attention_mask Ngram_hidden_states Ngram_position_matrix
      Ngram_attention_mask true false output_attentions).1
      = (robertaEncoderLoop cfg Ngram_layers attention_mask
          Ngram_attention_mask Ngram_position_matrix true output_attentions
          layers 0
          ⟨hidden_states, Ngram_hidden_states, [], []⟩).all_encoder_layers := by
    simp [robertaEncoderForward]
  rw [hred1, hred2, hfalseacc, htrue, hindep]
  exact getLastD_append_singleton _ _ _

/-- C2 counterexample: with a single identity layer, pre-norm placement
with normalization enabled and a doubling final norm, the last recorded
hidden state differs between recording all layers (no final norm applied)
and recording only the last one (final norm applied). -/
theorem c2_counterexample :
    (robertaEncoderForward ⟨true, LnMode.pre, false, 0, false⟩
        [fun (h : T3) (_ : Unit) => (h, ())] []
        (fun t => mapT3 (fun q => 2 * q) t)
        [[[1]]] () [] [] () true false false).1.getLastD []
      ≠ (robertaEncoderForward ⟨true, LnMode.pre, false, 0, false⟩
        [fun (h : T3) (_ : Unit) => (h, ())] []
        (fun t => mapT3 (fun q => 2 * q) t)
        [[[1]]] () [] [] () false false false).1.getLastD [] := by
  simp [robertaEncoderForward, robertaEncoderLoop, mapT3]

/-- Witness for C2's amended theorem at a concrete one-layer encoder. -/
theorem c2_witness :
    ([fun (h : T3) (_ : Unit) => (h, ())]
        : List (T3 → Unit → T3 × Unit)) ≠ []
    ∧ (robertaEncoderForward ⟨true, LnMode.pre, false, 0, false⟩
          [fun (h : T3) (_ : Unit) => (h, ())] []
          (fun t => mapT3 (fun q => 2 * q) t)
          [[[1]]] () [] [] () false false false).1.getLastD []
      = (fun t => mapT3 (fun q => 2 * q) t)
          ((robertaEncoderForward ⟨true, LnMode.pre, false, 0, false⟩
              [fun (h : T3) (_ : Unit) => (h, ())] []
              (fun t => mapT3 (fun q => 2 * q) t)
              [[[1]]] () [] [] () true false false).1.getLastD []) :=
  ⟨List.cons_ne_nil _ _,
    c2_encoder_final_hidden_final_norm ⟨true, LnMode.pre, false, 0, false⟩
      [fun (h : T3) (_ : Unit) => (h, ())] []
      (fun t => mapT3 (fun q => 2 * q) t) [[[1]]] () [] [] () false
      rfl rfl rfl (List.cons_ne_nil _ _)⟩

/-- Sequential layer application over an appended list splits into the two
pieces. -/
theorem customForward_append {A P : Type} (l1 l2 : List (T3 → A → T3 × P))
    (x : T3) (mask : A) :
    customForward (l1 ++ l2) x mask
      = customForward l2 (customForward l1 x mask) mask := by
  simp [customForward, List.foldl_append]

/-- The checkpointing while-loop computes exactly the sequential
application of the layers from index `l` on, whenever the chunk length is
positive and the fuel covers the remaining layers. -/
theorem ckptLoop_eq_customForward {A P : Type}
    (layers : List (T3 → A → T3 × P)) (chunk : ℕ) (mask : A)
    (hchunk : 1 ≤ chunk) :
    ∀ (fuel l : ℕ) (h : T3), layers.length ≤ l + fuel * chunk →
      ckptLoop layers chunk mask fuel l h
        = customForward (layers.drop l) h mask := by
  intro fuel
  induction fuel with
  | zero =>
      intro l h hle
      have hdrop : layers.drop l = [] :=
        List.drop_eq_nil_of_le (by simpa using hle)
      simp [ckptLoop, hdrop, customForward,
        Nat.not_lt.mpr (by simpa using hle : layers.length ≤ l)]
  | succ fuel ih =>
      intro l h hle
      by_cases hl : l < layers.length
      · have harith : layers.length ≤ (l + chunk) + fuel * chunk := by
          calc layers.length ≤ l + (fuel + 1) * chunk := hle
          _ = (l + chunk) + fuel * chunk := by ring
        simp only [ckptLoop, if_pos hl]
        rw [ih (l + chunk) _ harith]
        rw [← customForward_append]
        congr 1
        have hdd : layers.drop (l + chunk) = (layers.drop l).drop chunk := by
          rw [List.drop_drop, Nat.add_comm]
        rw [hdd]
        exact List.take_append_drop chunk (layers.drop l)
      · have hdrop : layers.drop l = [] :=
          List.drop_eq_nil_of_le (Nat.le_of_not_lt hl)
        simp [ckptLoop, hl, hdrop, customForward]

/-- C7: the checkpointed encoder partitions its layers into contiguous
chunks of size `ceil(sqrt(num_layers))` — for 10 layers the chunk length
is 4 and the chunk index ranges have sizes [4, 4, 2] — and the output list
holds exactly one entry: the hidden state after the last chunk (equal to
the sequential application of all the layers, with the final layer norm in
pre-norm mode). -/
theorem c7_checkpoint_chunking :
    (ceilSqrt 10 = 4
      ∧ (ckptChunkBounds 10 (ceilSqrt 10) 10 0).map (fun p => p.2 - p.1)
          = [4, 4, 2])
    ∧ ∀ (A P : Type) (cfg : RobertaEncoderConfig)
        (layers Ngram_layers : List (T3 → A → T3 × P))
        (FinalLayerNorm : T3 → T3) (hidden_states : T3) (attention_mask : A)
        (Ngram_hidden_states Ngram_position_matrix : T3)
        (Ngram_attention_mask : A) (oa ot : Bool),
        (robertaEncoderForward cfg layers Ngram_layers FinalLayerNorm
            hidden_states attention_mask Ngram_hidden_states
            Ngram_position_matrix Ngram_attention_mask oa true ot).1
          = [if cfg.useLN ∧ cfg.encoder_ln_mode = LnMode.pre
              then FinalLayerNorm
                (customForward layers hidden_states attention_mask)
              else customForward layers hidden_states attention_mask] := by
  constructor
  · have hle3 : 3 ≤ Nat.sqrt 10 := Nat.le_sqrt.mpr (by norm_num)
    have hlt4 : Nat.sqrt 10 < 4 := Nat.sqrt_lt.mpr (by norm_num)
    have hceil : ceilSqrt 10 = 4 := by
      unfold ceilSqrt
      have hsq10 : Nat.sqrt 10 = 3 := by omega
      rw [hsq10]
      norm_num
    refine ⟨hceil, ?_⟩
    rw [hceil]
    decide
  · intro A P cfg layers ngl fln h mask ngh posM ngmask oa ot
    have hloop : ckptLoop layers (ceilSqrt layers.length) mask
        layers.length 0 h = customForward layers h mask := by
      rcases Nat.eq_zero_or_pos layers.length with h0 | hpos
      · have hnil : layers = [] := List.length_eq_zero.mp h0
        subst hnil
        simp [ckptLoop, customForward]
      · have hchunk : 1 ≤ ceilSqrt layers.length := by
          unfold ceilSqrt
          by_cases hsq : Nat.sqrt layers.length * Nat.sqrt layers.length
              = layers.length
          · rw [if_pos hsq]
            rcases Nat.eq_zero_or_pos (Nat.sqrt layers.length) with hz | ho
            · exfalso
              rw [hz] at hsq
              simp at hsq
              omega
            · exact ho
          · rw [if_neg hsq]
            omega
        have hbound : layers.length
            ≤ 0 + layers.length * ceilSqrt layers.length := by
          have h1 : layers.length * 1 ≤ layers.length * ceilSqrt layers.length :=
            Nat.mul_le_mul_left layers.length hchunk
          simpa using h1
        simpa using ckptLoop_eq_customForward layers (ceilSqrt layers.length)
          mask hchunk layers.length 0 h hbound
    simp [robertaEncoderForward, hloop]

/-- Flattening a list of lists after mapping a function over every inner
element equals mapping over the flattening. -/
theorem flatten_map_map {α β : Type} (f : α → β) (L : List (List α)) :
    (L.map (List.map f)).flatten = L.flatten.map f := by
  induction L with
  | nil => rfl
  | cons m rest ih =>
      rw [List.map_cons, List.flatten_cons, List.flatten_cons,
        List.map_append, ih]

/-- `flatten_map_map` specialised to the row-wise tensor map. -/
theorem flatten_mapRows (f : Vec → Vec) (t : T3) :
    (mapRows f t).flatten = t.flatten.map f :=
  flatten_map_map f t

/-- Parameters of `RobertaLMPredictionHead` (source lines 665-676): the
transform (`RobertaPredictionHeadTransform`, a dense layer with the
configured activation, fused or not both computing `act(W x + b)`,
followed by the configured layer norm only when normalization is enabled,
source lines 645-662), the decoder weight tied to the embedding table, the
independent vocabulary bias — wired into the decoder only when sparse mask
prediction is off — and the sparse flag. -/
structure LMPredictionHeadParams where
  act : ℚ → ℚ
  transform_W : Mat
  transform_b : Vec
  useLN : Bool
  transformLayerNorm : Vec → Vec
  decoder_weight : Mat
  bias : Vec
  sparse_predict : Bool

/-- `RobertaPredictionHeadTransform.forward` (source lines 657-662) on one
last-axis row. -/
def predictionHeadTransformRow (p : LMPredictionHeadParams) (x : Vec) : Vec :=
  let h := (addVec (matVec p.transform_W x) p.transform_b).map p.act
  if p.useLN then p.transformLayerNorm h else h

/-- `RobertaLMPredictionHead.forward`, source lines 678-690: in sparse mode,
gather the masked rows of the flattened hidden states first, then
transform and decode them (decoder without bias); otherwise transform and
decode all positions (decoder with the bias wired in) and gather the
masked rows afterwards with `index_select`.  The index list is always
supplied here (the callers pass the masked-token index list, and the
`None` guard of the source is the supplied-case branch). -/
def robertaLMPredictionHead (p : LMPredictionHeadParams) (hidden_states : T3)
    (masked_token_indexes : List ℕ) : Mat :=
  if p.sparse_predict then
    let rows := hidden_states.flatten
    let selected := masked_token_indexes.map (fun i => rows.getD i [])
    (selected.map (predictionHeadTransformRow p)).map
      (fun r => matVec p.decoder_weight r)
  else
    let transformed := mapRows (predictionHeadTransformRow p) hidden_states
    let decoded := mapRows
      (fun r => addVec (matVec p.decoder_weight r) p.bias) transformed
    masked_token_indexes.map (fun i => decoded.flatten.getD i [])

/-- C1 counterexample: with a nonzero bias vector and identical remaining
parameters, sparse mode (bias not wired into the decoder) and non-sparse
mode (bias wired in) return different vocabulary-logit rows for the same
input and the same one-element masked index list. -/
theorem c1_counterexample :
    robertaLMPredictionHead
        ⟨fun q => q, [[1]], [0], false, fun v => v, [[1]], [1], true⟩
        [[[1]]] [0]
      ≠ robertaLMPredictionHead
        ⟨fun q => q, [[1]], [0], false, fun v => v, [[1]], [1], false⟩
        [[[1]]] [0] := by
  have hs : robertaLMPredictionHead
      ⟨fun q => q, [[1]], [0], false, fun v => v, [[1]], [1], true⟩
      [[[1]]] [0] = [[1]] := by
    norm_num [robertaLMPredictionHead, predictionHeadTransformRow, mapRows,
      matVec, addVec, dotQ]
  have hd : robertaLMPredictionHead
      ⟨fun q => q, [[1]], [0], false, fun v => v, [[1]], [1], false⟩
      [[[1]]] [0] = [[2]] := by
    norm_num [robertaLMPredictionHead, predictionHeadTransformRow, mapRows,
      matVec, addVec, dotQ]
  rw [hs, hd]
  intro h
  have h2 := List.head_eq_of_cons_eq h
  have h3 := List.head_eq_of_cons_eq h2
  norm_num at h3

/-- C1 (amended): for every parameter set and every index list whose
entries are valid flat positions, the non-sparse output rows equal the
sparse output rows with the decoder bias vector added elementwise; the two
configurations are therefore functionally equivalent exactly when the bias
contribution vanishes (as with the zero-initialized bias). -/
theorem c1_lm_head_sparse_dense_bias_offset (p : LMPredictionHeadParams)
    (hidden_states : T3) (idxs : List ℕ)
    (hvalid : ∀ i ∈ idxs, i < hidden_states.flatten.length) :
    robertaLMPredictionHead { p with sparse_predict := false } hidden_states idxs
      = (robertaLMPredictionHead { p with sparse_predict := true }
          hidden_states idxs).map (fun r => addVec r p.bias) := by
  show idxs.map (fun i =>
      (mapRows (fun r => addVec (matVec p.decoder_weight r) p.bias)
        (mapRows (predictionHeadTransformRow p) hidden_states)).flatten.getD i [])
    = (((idxs.map (fun i => hidden_states.flatten.getD i [])).map
        (predictionHeadTransformRow p)).map
          (fun r => matVec p.decoder_weight r)).map (fun r => addVec r p.bias)
  rw [List.map_map, List.map_map, List.map_map]
  apply List.map_congr_left
  intro i hi
  rw [flatten_mapRows, flatten_mapRows, List.map_map]
  rw [getD_map_lt ((fun r => addVec (matVec p.decoder_weight r) p.bias)
      ∘ predictionHeadTransformRow p) hidden_states.flatten i [] [] (hvalid i hi)]
  rfl

/-- Witness for C1's amended theorem at a concrete one-row input with
bias vector [1]. -/
theorem c1_witness :
    (∀ i ∈ [0], i < ([[[1]]] : T3).flatten.length)
    ∧ robertaLMPredictionHead
        ⟨fun q => q, [[1]], [0], false, fun v => v, [[1]], [1], false⟩
        [[[1]]] [0]
      = (robertaLMPredictionHead
          ⟨fun q => q, [[1]], [0], false, fun v => v, [[1]], [1], true⟩
          [[[1]]] [0]).map (fun r => addVec r ([1] : Vec)) :=
  ⟨by decide,
    c1_lm_head_sparse_dense_bias_offset
      ⟨fun q => q, [[1]], [0], false, fun v => v, [[1]], [1], true⟩
      [[[1]]] [0] (by decide)⟩

/-- `torch.nonzero(v, as_tuple=False).view(-1)` on a flat integer tensor:
the indices of the nonzero entries, in ascending order. -/
def torchNonzeroFlat (v : List ℤ) : List ℕ :=
  (List.range v.length).filter (fun i => v.getD i 0 != 0)

/-- The masked-token index list of `RobertaForPreTraining.forward` (source
lines 880-882) and `RobertaLMHeadModel.forward` (source lines 944-946):
the nonzero positions of `(masked_lm_labels + 1).view(-1)`. -/
def maskedTokenIndexes (labels : List (List ℤ)) : List ℕ :=
  torchNonzeroFlat ((labels.map (fun row => row.map (fun z => z + 1))).flatten)

/-- The masked-LM loss computation of `RobertaLMHeadModel.forward` (source
lines 944-952): prediction scores from the LM head restricted to the masked
index list, targets gathered from the flattened labels with `index_select`,
and the external cross-entropy loss (`CrossEntropyLoss(ignore_index=-1)`,
an external `torch` collaborator abstracted as `lossFn`) applied to
exactly these two gathered sequences. -/
def robertaMaskedLmLoss (lossFn : Mat → List ℤ → ℚ)
    (p : LMPredictionHeadParams) (labels : List (List ℤ))
    (sequence_output : T3) : ℚ :=
  let masked_token_indexes := maskedTokenIndexes labels
  let prediction_scores :=
    robertaLMPredictionHead p sequence_output masked_token_indexes
  let target := masked_token_indexes.map (fun i => labels.flatten.getD i 0)
  lossFn prediction_scores target

/-- C5: the masked-token index list contains exactly the flat positions
whose label is not -1, in strictly ascending order; on the concrete
(2, 5) label tensor with real labels at flat positions 2 and 5 it equals
[2, 5]; and in sparse mode the masked-LM loss depends only on the logit
rows at those indices (hidden states agreeing there give equal losses, the
label gather being restricted to the same indices by construction). -/
theorem c5_masked_token_indexes_spec :
    (∀ (labels : List (List ℤ)) (i : ℕ),
        i ∈ maskedTokenIndexes labels
          ↔ i < labels.flatten.length ∧ labels.flatten.getD i 0 ≠ -1)
    ∧ (∀ labels : List (List ℤ),
        (maskedTokenIndexes labels).Pairwise (· < ·))
    ∧ maskedTokenIndexes [[-1, -1, 7, -1, -1], [3, -1, -1, -1, -1]] = [2, 5]
    ∧ (∀ (lossFn : Mat → List ℤ → ℚ) (p : LMPredictionHeadParams)
        (labels : List (List ℤ)) (s1 s2 : T3),
        (∀ i ∈ maskedTokenIndexes labels,
          s1.flatten.getD i [] = s2.flatten.getD i []) →
        robertaMaskedLmLoss lossFn { p with sparse_predict := true } labels s1
          = robertaMaskedLmLoss lossFn { p with sparse_predict := true }
              labels s2) := by
  have hflat : ∀ labels : List (List ℤ),
      (labels.map (fun row => row.map (fun z => z + 1))).flatten
        = labels.flatten.map (fun z => z + 1) := by
    intro labels
    exact flatten_map_map (fun z => z + 1) labels
  refine ⟨?_, ?_, ?_, ?_⟩
  · intro labels i
    simp only [maskedTokenIndexes, torchNonzeroFlat, hflat, List.mem_filter,
      List.mem_range, List.length_map]
    constructor
    · rintro ⟨hlt, hpred⟩
      refine ⟨hlt, ?_⟩
      rw [getD_map_lt (fun z : ℤ => z + 1) labels.flatten i 0 0 hlt] at hpred
      have hne : labels.flatten.getD i 0 + 1 ≠ 0 := by simpa using hpred
      omega
    · rintro ⟨hlt, hne⟩
      refine ⟨hlt, ?_⟩
      rw [getD_map_lt (fun z : ℤ => z + 1) labels.flatten i 0 0 hlt]
      simpa using (by omega : labels.flatten.getD i 0 + 1 ≠ 0)
  · intro labels
    exact List.Pairwise.sublist (List.filter_sublist _)
      (List.pairwise_lt_range _)
  · decide
  · intro lossFn p labels s1 s2 hagree
    have hscores : robertaLMPredictionHead { p with sparse_predict := true }
        s1 (maskedTokenIndexes labels)
        = robertaLMPredictionHead { p with sparse_predict := true }
          s2 (maskedTokenIndexes labels) := by
      show ((((maskedTokenIndexes labels).map
            (fun i => s1.flatten.getD i [])).map
              (predictionHeadTransformRow { p with sparse_predict := true })).map
                (fun r => matVec p.decoder_weight r))
        = ((((maskedTokenIndexes labels).map
            (fun i => s2.flatten.getD i [])).map
              (predictionHeadTransformRow { p with sparse_predict := true })).map
                (fun r => matVec p.decoder_weight r))
      have hsel : (maskedTokenIndexes labels).map
          (fun i => s1.flatten.getD i [])
          = (maskedTokenIndexes labels).map
            (fun i => s2.flatten.getD i []) :=
        List.map_congr_left hagree
      rw [hsel]
    show lossFn (robertaLMPredictionHead { p with sparse_predict := true } s1
          (maskedTokenIndexes labels))
        ((maskedTokenIndexes labels).map (fun i => labels.flatten.getD i 0))
      = lossFn (robertaLMPredictionHead { p with sparse_predict := true } s2
          (maskedTokenIndexes labels))
        ((maskedTokenIndexes labels).map (fun i => labels.flatten.getD i 0))
    rw [hscores]

/-- Parameters of `RobertaEmbeddings` (source lines 257-270): the three
embedding tables, the configuration's `layernorm_embedding` flag, and the
layer norm that would be constructed for the embedding output. -/
structure RobertaEmbeddingsParams where
  word_embeddings : Mat
  position_embeddings : Mat
  token_type_embeddings : Mat
  layernorm_embedding_cfg : Bool
  layerNorm : Vec → Vec

/-- Python `hasattr(config, "config.layernorm_embedding")` from
`RobertaEmbeddings.__init__`, source line 264: the attribute name looked
up is the literal dotted string "config.layernorm_embedding", which is
never an attribute of the config object (the config's flag is named
`layernorm_embedding`), so the lookup always fails. -/
def hasattrConfigDotLayernormEmbedding : Bool := false

/-- `RobertaEmbeddings.__init__` lines 263-265: `self.layernorm_embedding`
starts as False and is overwritten with the config flag only when the
dotted-name attribute lookup succeeds. -/
def resolvedLayernormEmbedding (cfgFlag : Bool) : Bool :=
  if hasattrConfigDotLayernormEmbedding then cfgFlag else false

/-- One batch row of `RobertaEmbeddings.forward` (source lines 272-283):
token-embedding lookup plus position-embedding lookup (positions are the
implicit sequence `0..seq-1`; the source takes the common row length
`input_ids.size(1)` and broadcasts, which per row coincides with the row's
own length on a rectangular batch) plus segment-embedding lookup. -/
def embeddingsRow (p : RobertaEmbeddingsParams) (ids tids : List ℕ) : Mat :=
  let words := ids.map (fun i => p.word_embeddings.getD i [])
  let pos := (List.range ids.length).map
    (fun j => p.position_embeddings.getD j [])
  let types := tids.map (fun i => p.token_type_embeddings.getD i [])
  List.zipWith addVec (List.zipWith addVec words pos) types

/-- `RobertaEmbeddings.forward`, source lines 272-289: segment ids default
to all-zero when omitted; the three lookups are summed; the layer norm is
applied only when the resolved `layernorm_embedding` flag is set; dropout
is applied last. -/
def robertaEmbeddingsForward (p : RobertaEmbeddingsParams)
    (input_ids : List (List ℕ)) (token_type_ids : Option (List (List ℕ))) :
    T3 :=
  let tt := token_type_ids.getD (input_ids.map (fun row => row.map (fun _ => 0)))
  let embeddings := List.zipWith (embeddingsRow p) input_ids tt
  let embeddings :=
    if resolvedLayernormEmbedding p.layernorm_embedding_cfg then
      embeddings.map (fun m => m.map p.layerNorm)
    else embeddings
  dropout3 embeddings

/-- C8 (code bug evidence): the embedding-normalization flag is never
honoured — the resolved flag is False for every configuration because the
`hasattr` lookup uses the dotted name "config.layernorm_embedding" — so
the embedding composer's output is always the un-normalized sum passed
through dropout, even when the configuration's flag is set; at the
concrete one-token input with a tripling layer norm, the output is the raw
sum [[[2]]] and differs from the normalized value it would have if the
flag were honoured. -/
theorem c8_embedding_norm_flag_never_applied :
    (∀ cfgFlag : Bool, resolvedLayernormEmbedding cfgFlag = false)
    ∧ (∀ (p : RobertaEmbeddingsParams) (input_ids : List (List ℕ))
        (token_type_ids : Option (List (List ℕ))),
        robertaEmbeddingsForward p input_ids token_type_ids
          = List.zipWith (embeddingsRow p) input_ids
              (token_type_ids.getD
                (input_ids.map (fun row => row.map (fun _ => 0)))))
    ∧ robertaEmbeddingsForward
        ⟨[[1]], [[1]], [[0]], true, fun v => v.map (fun q => 3 * q)⟩
        [[0]] none
      = [[[2]]]
    ∧ ([[[2]]] : T3).map
        (fun m => m.map (fun v => v.map (fun q => 3 * q))) ≠ [[[2]]] := by
  refine ⟨?_, ?_, ?_, ?_⟩
  · intro cfgFlag
    rfl
  · intro p input_ids token_type_ids
    rfl
  · have hr1 : List.range 1 = [0] := by decide
    norm_num [robertaEmbeddingsForward, embeddingsRow, addVec,
      resolvedLayernormEmbedding, hasattrConfigDotLayernormEmbedding,
      dropout3, hr1]
  · intro h
    have h1 := List.head_eq_of_cons_eq h
    have h2 := List.head_eq_of_cons_eq h1
    have h3 := List.head_eq_of_cons_eq h2
    norm_num at h3
